import Mathlib

/-!
Shallow embedding of the C vector library (src/vector.c, src/vector.h).

Modelling conventions:
* A `vec_t` value (reached through a non-null handle) is a `CVec α`.  The C
  field `void **data` is `data : Option (List (Option α))`: `none` models a
  null buffer pointer, `some buf` models an allocated buffer of
  `buf.length` slots.  A slot holds `some x` when it stores a pointer to an
  element whose copied bytes are abstracted as the value `x`, and `none`
  when it holds a null or indeterminate pointer (freshly `malloc`-ed slots,
  slots cleared by `vec_del`, slots whose element was freed).
* `size_t` values are modelled as `Nat`.  The subtractions the code
  performs on `size_t` (`v->len - 1`, `v->len - i`, `v->len - (i + n)`)
  can wrap around; they are modelled exactly as wrapping subtraction
  modulo `W = 2 ^ 64` (`ssub`).  Additions and multiplications that feed
  allocation sizes stay plain `Nat`; their overflow is unreachable in the
  states the theorems quantify over.
* Allocation (`malloc` / `realloc`) may fail nondeterministically in C; the
  embedding passes the outcome in as an explicit `Bool` oracle argument
  (`true` = allocation succeeds), so every claim can quantify over it.
* Out-of-bounds buffer accesses are undefined behaviour in C; the embedding
  makes every slot read, slot write and `memmove` bounds-checked and
  returns `Except UB` — `.error` marks exactly the executions whose access
  pattern leaves the allocated buffer.
* The null-handle branch (`v == NULL`) of each C function concerns the
  handle rather than the pointed-to state and is modelled away: the
  embedding always works on a present `CVec`.  `vec_init`'s overwriting of
  whatever state the handle previously held is kept (it takes and ignores
  the previous `CVec`).
-/

namespace VecC

/-- Width of `size_t` on the modelled LP64 platform. -/
def W : Nat := 2 ^ 64

/-- Wrapping `size_t` subtraction: the value of `a - b` computed in C. -/
def ssub (a b : Nat) : Nat := (a + W - b) % W

def VEC_GOOD : Nat := 0
def VEC_ALLOC_ERR : Nat := 1
def VEC_NULL_ERR : Nat := 2
def VEC_RANGE_ERR : Nat := 3

/-- `DEF_MAX` from vector.c. -/
def DEF_MAX : Nat := 10

/-- Marker for an execution that performs an out-of-bounds buffer access
(undefined behaviour in the C source). -/
inductive UB
  | oob
deriving DecidableEq, Repr

/-- The `vec_t` structure: `data` is `none` when the C `data` pointer is
null, otherwise the list of allocated slots; `len` and `max` are the two
`size_t` fields. -/
structure CVec (α : Type) where
  data : Option (List (Option α))
  len : Nat
  max : Nat
deriving DecidableEq, Repr

/-- `vec_check`: the vector is valid when its buffer pointer is non-null
(the `v != NULL` half concerns the handle and is modelled away). -/
def vec_check {α : Type} (v : CVec α) : Bool := v.data.isSome

/-- `realloc` of a slot buffer to `n` slots: the first `min n old` slots
are preserved, any new slots are indeterminate. -/
def reallocSlots {α : Type} (buf : List (Option α)) (n : Nat) : List (Option α) :=
  buf.take n ++ List.replicate (n - buf.length) none

/-- Bounds-checked read of slot `i` (`buf[i]`). -/
def readSlot {α : Type} (buf : List (Option α)) (i : Nat) : Except UB (Option α) :=
  if i < buf.length then .ok (buf.getD i none) else .error UB.oob

/-- Bounds-checked write of slot `i` (`buf[i] = x`). -/
def setSlot {α : Type} (buf : List (Option α)) (i : Nat) (x : Option α) :
    Except UB (List (Option α)) :=
  if i < buf.length then .ok (buf.set i x) else .error UB.oob

/-- `memmove(buf + dst, buf + src, cnt * sizeof(void *))` at slot
granularity: overlapping regions behave as if all sources were read
first.  Accessing any slot outside the buffer is undefined behaviour. -/
def memmoveSlots {α : Type} (buf : List (Option α)) (dst src cnt : Nat) :
    Except UB (List (Option α)) :=
  if dst + cnt ≤ buf.length ∧ src + cnt ≤ buf.length then
    .ok ((List.range buf.length).map fun k =>
      if dst ≤ k ∧ k < dst + cnt then buf.getD (src + k - dst) none
      else buf.getD k none)
  else .error UB.oob

/-- The freeing loops (`free(v->data[...])`): the freed pointers become
dangling; the embedding clears the affected slots to `none`. -/
def clearRange {α : Type} (buf : List (Option α)) (i n : Nat) : List (Option α) :=
  (List.range n).foldl (fun b j => b.set (i + j) none) buf

/-- `vec_init`: overwrites the handle's state with a fresh vector of
length 0 and capacity `DEF_MAX`; on `malloc` failure the buffer pointer is
null and `VEC_ALLOC_ERR` is returned. -/
def vec_init {α : Type} (allocOk : Bool) (_v : CVec α) : Nat × CVec α :=
  ((if allocOk then VEC_GOOD else VEC_ALLOC_ERR),
   { data := if allocOk then some (List.replicate DEF_MAX (none : Option α)) else none,
     len := 0,
     max := DEF_MAX })

/-- `vec_reserve`: rejects `n ≤ max` with `VEC_RANGE_ERR`; otherwise
reallocates to `n * max` slots (the source multiplies the request by the
old capacity) and on success sets `max := n`.  No `vec_check`: the only
guard in the source is on the handle. -/
def vec_reserve {α : Type} (allocOk : Bool) (v : CVec α) (n : Nat) : Nat × CVec α :=
  if n ≤ v.max then (VEC_RANGE_ERR, v)
  else if allocOk then
    (VEC_GOOD, { v with
                 max := n,
                 data := some (reallocSlots (v.data.getD []) (n * v.max)) })
  else (VEC_ALLOC_ERR, v)

/-- `vec_fix`: nothing to do while `len < max`; otherwise doubles the
capacity by `realloc`, returning `false` (state unchanged) when the
reallocation fails. -/
def vec_fix {α : Type} (allocOk : Bool) (v : CVec α) : Bool × CVec α :=
  if v.len < v.max then (true, v)
  else if allocOk then
    (true, { v with
             max := 2 * v.max,
             data := some (reallocSlots (v.data.getD []) (2 * v.max)) })
  else (false, v)

/-- `vec_new_elem`: null data or zero size yield a null element; otherwise
`malloc` (oracle) plus `memcpy`, abstracted as the copied value itself. -/
def vec_new_elem {α : Type} (allocOk : Bool) (d : Option α) (n : Nat) : Option α :=
  if d.isNone ∨ n = 0 then none
  else if allocOk then d else none

/-- `vec_add`: check, grow if needed (`vec_fix`), copy the element, store
it at index `len`, increment `len`.  Note that a `vec_new_elem` failure —
including the null-data / zero-size case — returns `VEC_ALLOC_ERR` with
the possibly already-grown state kept. -/
def vec_add {α : Type} (fixOk elemOk : Bool) (v : CVec α) (d : Option α) (n : Nat) :
    Except UB (Nat × CVec α) :=
  match v.data with
  | none => .ok (VEC_NULL_ERR, v)
  | some _ =>
    let fv := vec_fix fixOk v
    if ¬ fv.1 then .ok (VEC_ALLOC_ERR, fv.2)
    else
      match vec_new_elem elemOk d n with
      | none => .ok (VEC_ALLOC_ERR, fv.2)
      | some e => do
        let buf2 ← setSlot (fv.2.data.getD []) fv.2.len (some e)
        .ok (VEC_GOOD, { fv.2 with data := some buf2, len := fv.2.len + 1 })

/-- `vec_ins`: an index at or past `len` delegates to `vec_add`; otherwise
grow if needed, copy the element, `memmove` the tail one slot right
(the source moves `len - i` slots, so it also reads slot `len`), store at
`i`, increment `len`. -/
def vec_ins {α : Type} (fixOk elemOk : Bool) (v : CVec α) (d : Option α) (n i : Nat) :
    Except UB (Nat × CVec α) :=
  match v.data with
  | none => .ok (VEC_NULL_ERR, v)
  | some _ =>
    if i ≥ v.len then vec_add fixOk elemOk v d n
    else
      let fv := vec_fix fixOk v
      if ¬ fv.1 then .ok (VEC_ALLOC_ERR, fv.2)
      else
        match vec_new_elem elemOk d n with
        | none => .ok (VEC_ALLOC_ERR, fv.2)
        | some e => do
          let buf1 ← memmoveSlots (fv.2.data.getD []) (i + 1) i (ssub fv.2.len i)
          let buf2 ← setSlot buf1 i (some e)
          .ok (VEC_GOOD, { fv.2 with data := some buf2, len := fv.2.len + 1 })

/-- `vec_del`: with `i ≥ len - 1` (computed in `size_t`, so an empty
vector wraps to `SIZE_MAX`) the last slot is taken, otherwise slot `i` is
taken and the tail is moved left by `memmove` of `len - i` slots; then
`v->data[--v->len] = NULL`. -/
def vec_del {α : Type} (v : CVec α) (i : Nat) : Except UB (Option α × CVec α) :=
  match v.data with
  | none => .ok (none, v)
  | some buf =>
    if i ≥ ssub v.len 1 then do
      let ret ← readSlot buf (ssub v.len 1)
      let buf2 ← setSlot buf (ssub v.len 1) none
      .ok (ret, { v with data := some buf2, len := ssub v.len 1 })
    else do
      let ret ← readSlot buf i
      let buf1 ← memmoveSlots buf i (i + 1) (ssub v.len i)
      let buf2 ← setSlot buf1 (ssub v.len 1) none
      .ok (ret, { v with data := some buf2, len := ssub v.len 1 })

/-- `vec_delrange`: clamp `i` to `len - 1` (in `size_t`, so an empty
vector wraps), clamp `n` to `len - i`, free the `n` slots, move the
`left = len - (i + n)` trailing slots down, decrease `len` by `n`. -/
def vec_delrange {α : Type} (v : CVec α) (i n : Nat) : Except UB (CVec α) :=
  match v.data with
  | none => .ok v
  | some buf =>
    if n = 0 then .ok v
    else
      let i2 := if i ≥ v.len then ssub v.len 1 else i
      let n2 := if n > ssub v.len i2 then ssub v.len i2 else n
      let left := ssub v.len (i2 + n2)
      if i2 + n2 ≤ buf.length then
        let buf1 := clearRange buf i2 n2
        if left ≠ 0 then do
          let buf2 ← memmoveSlots buf1 i2 (i2 + n2) left
          .ok { v with data := some buf2, len := ssub v.len n2 }
        else .ok { v with data := some buf1, len := ssub v.len n2 }
      else .error UB.oob

/-- One iteration of `vec_reverse`'s loop body: swap slots `a` and `b`. -/
def swapSlots {α : Type} (buf : List (Option α)) (a b : Nat) : List (Option α) :=
  (buf.set a (buf.getD b none)).set b (buf.getD a none)

/-- `vec_reverse`: swap slot `i` with slot `len - i - 1` for every
`i < len / 2` (`len - i - 1` cannot wrap there). -/
def vec_reverse {α : Type} (v : CVec α) : CVec α :=
  match v.data with
  | none => v
  | some buf =>
    { v with data := some ((List.range (v.len / 2)).foldl
        (fun b j => swapSlots b j (v.len - j - 1)) buf) }

/-- `vec_clear`: free every live element and set `len` to 0; capacity and
buffer stay. -/
def vec_clear {α : Type} (v : CVec α) : CVec α :=
  match v.data with
  | none => v
  | some buf => { v with data := some (clearRange buf 0 v.len), len := 0 }

/-- `vec_free`: free the elements and the buffer, null the buffer pointer;
`len` and `max` are left as they were. -/
def vec_free {α : Type} (v : CVec α) : CVec α :=
  match v.data with
  | none => v
  | some _ => { v with data := none }

/-- Insertion into a sorted list, used to model `qsort`'s result. -/
def insertBy {α : Type} (le : α → α → Bool) (x : α) : List α → List α
  | [] => [x]
  | y :: ys => if le x y then x :: y :: ys else y :: insertBy le x ys

/-- Comparison-based sorting of a list, used to model `qsort`'s result. -/
def sortBy {α : Type} (le : α → α → Bool) : List α → List α
  | [] => []
  | x :: xs => insertBy le x (sortBy le xs)

/-- `vec_sort`: invalid vector or null comparator give `VEC_NULL_ERR`;
otherwise the first `len` slots are sorted per the comparator (`qsort`'s
exact permutation among ties is unspecified; the embedding picks one
comparison sort — no theorem below depends on the sorted arrangement). -/
def vec_sort {α : Type} (v : CVec α) (cmp : Option (Option α → Option α → Int)) :
    Nat × CVec α :=
  if ¬ vec_check v ∨ cmp.isNone then (VEC_NULL_ERR, v)
  else
    let buf := v.data.getD []
    let c := cmp.getD fun _ _ => 0
    if v.len ≠ 0 then
      (VEC_GOOD, { v with data := some (sortBy (fun a b => c a b ≤ 0) (buf.take v.len)
                            ++ buf.drop v.len) })
    else (VEC_GOOD, v)

/-- The state of a freshly, successfully initialised vector. -/
def initVec (α : Type) : CVec α := (vec_init true { data := none, len := 0, max := 0 }).2

/-- Well-formedness of a vector state: `len ≤ max`; when the buffer is
allocated, `max` fits in it and the buffer is addressable by `size_t`.
Every state reachable through the API satisfies this. -/
def Wf {α : Type} (v : CVec α) : Prop :=
  v.len ≤ v.max ∧ ∀ buf, v.data = some buf → (v.max ≤ buf.length ∧ buf.length < W)

/-- Iterated `vec_add` with succeeding allocations, stopping at the first
call that does not return `VEC_GOOD`. -/
def addList {α : Type} (v : CVec α) : List α → Except UB (Nat × CVec α)
  | [] => .ok (VEC_GOOD, v)
  | x :: rest => do
    let rv ← vec_add true true v (some x) 1
    if rv.1 = VEC_GOOD then addList rv.2 rest else .ok rv

/-- The content of slot `k` of a vector's buffer. -/
def slotD {α : Type} (v : CVec α) (k : Nat) : Option α := (v.data.getD []).getD k none

/-- A strengthening of `Wf` satisfied by every state reachable through the
API while the buffer is allocated: the buffer is present and the capacity
is positive. -/
def Inv {α : Type} (v : CVec α) : Prop :=
  ∃ buf, v.data = some buf ∧ v.len ≤ v.max ∧ v.max ≤ buf.length ∧ 0 < v.max

theorem W_pos : 0 < W := by norm_num [W]

theorem ssub_of_le {a b : Nat} (h : b ≤ a) (ha : a - b < W) : ssub a b = a - b := by
  unfold ssub
  have h1 : a + W - b = (a - b) + W := by omega
  rw [h1, Nat.add_mod_right, Nat.mod_eq_of_lt ha]

theorem ssub_of_gt {a b : Nat} (h : a < b) (hb : b ≤ a + W) : ssub a b = a + W - b := by
  unfold ssub
  exact Nat.mod_eq_of_lt (by omega)

theorem length_reallocSlots {α : Type} (buf : List (Option α)) (n : Nat) :
    (reallocSlots buf n).length = n := by
  simp [reallocSlots]
  omega

theorem getD_reallocSlots {α : Type} {buf : List (Option α)} {n k : Nat}
    (h1 : k < n) (h2 : k < buf.length) :
    (reallocSlots buf n).getD k none = buf.getD k none := by
  unfold reallocSlots
  rw [List.getD_append _ _ _ _ (by simp; omega)]
  rw [List.getD_eq_getElem _ _ (by simp; omega), List.getD_eq_getElem _ _ h2]
  simp

theorem getD_set_self {β : Type} {l : List β} {i : Nat} {x d : β} (h : i < l.length) :
    (l.set i x).getD i d = x := by
  rw [List.getD_eq_getElem _ _ (by simpa using h)]
  simp

theorem getD_set_ne {β : Type} {l : List β} {i j : Nat} {x d : β} (h : i ≠ j) :
    (l.set i x).getD j d = l.getD j d := by
  by_cases hj : j < l.length
  · rw [List.getD_eq_getElem _ _ (by simpa using hj), List.getD_eq_getElem _ _ hj]
    simp [List.getElem_set, h]
  · rw [List.getD_eq_default _ _ (by simpa using le_of_not_lt hj),
      List.getD_eq_default _ _ (le_of_not_lt hj)]

theorem readSlot_ok {α : Type} {buf : List (Option α)} {i : Nat} {y : Option α}
    (h : readSlot buf i = .ok y) : i < buf.length ∧ y = buf.getD i none := by
  unfold readSlot at h
  split at h
  · injection h with h2
    exact ⟨by assumption, h2.symm⟩
  · cases h

theorem setSlot_ok {α : Type} {buf buf2 : List (Option α)} {i : Nat} {x : Option α}
    (h : setSlot buf i x = .ok buf2) : i < buf.length ∧ buf2 = buf.set i x := by
  unfold setSlot at h
  split at h
  · injection h with h2
    exact ⟨by assumption, h2.symm⟩
  · cases h

theorem memmoveSlots_ok {α : Type} {buf buf2 : List (Option α)} {dst src cnt : Nat}
    (h : memmoveSlots buf dst src cnt = .ok buf2) :
    dst + cnt ≤ buf.length ∧ src + cnt ≤ buf.length ∧ buf2.length = buf.length := by
  unfold memmoveSlots at h
  split at h
  · refine ⟨by tauto, by tauto, ?_⟩
    injection h with h2
    rw [← h2]
    simp
  · cases h

theorem vec_add_ok {α : Type} (v : CVec α) (x : α) (hInv : Inv v) :
    ∃ v', vec_add true true v (some x) 1 = .ok (VEC_GOOD, v') ∧ Inv v' ∧
      v'.len = v.len + 1 ∧ (∀ k, k < v.len → slotD v' k = slotD v k) ∧
      slotD v' v.len = some x := by
  obtain ⟨buf, hd, hlm, hmb, hmpos⟩ := hInv
  by_cases hlt : v.len < v.max
  · have hsl : v.len < buf.length := lt_of_lt_of_le hlt hmb
    refine ⟨{ v with data := some (buf.set v.len (some x)), len := v.len + 1 },
      ?_, ?_, rfl, ?_, ?_⟩
    · simp [vec_add, hd, vec_fix, hlt, vec_new_elem, setSlot, hsl]
      rfl
    · refine ⟨buf.set v.len (some x), rfl, ?_, ?_, ?_⟩
      · show v.len + 1 ≤ v.max
        omega
      · show v.max ≤ (buf.set v.len (some x)).length
        simpa using hmb
      · exact hmpos
    · intro k hk
      simp only [slotD, hd, Option.getD_some]
      exact getD_set_ne (by omega)
    · simp only [slotD, hd, Option.getD_some]
      exact getD_set_self hsl
  · have hlen : v.len = v.max := le_antisymm hlm (not_lt.mp hlt)
    have hnbl : (reallocSlots buf (2 * v.max)).length = 2 * v.max :=
      length_reallocSlots _ _
    have hsl : v.len < (reallocSlots buf (2 * v.max)).length := by omega
    refine ⟨{ data := some ((reallocSlots buf (2 * v.max)).set v.len (some x)),
              len := v.len + 1, max := 2 * v.max }, ?_, ?_, rfl, ?_, ?_⟩
    · simp [vec_add, hd, vec_fix, hlt, vec_new_elem, setSlot, hsl]
      rfl
    · refine ⟨(reallocSlots buf (2 * v.max)).set v.len (some x), rfl, ?_, ?_, ?_⟩
      · show v.len + 1 ≤ 2 * v.max
        omega
      · show 2 * v.max ≤ ((reallocSlots buf (2 * v.max)).set v.len (some x)).length
        simp [hnbl]
      · show 0 < 2 * v.max
        omega
    · intro k hk
      simp only [slotD, hd, Option.getD_some]
      rw [getD_set_ne (by omega)]
      exact getD_reallocSlots (by omega) (by omega)
    · simp only [slotD, hd, Option.getD_some]
      exact getD_set_self hsl

theorem addList_ok {α : Type} (xs : List α) (v : CVec α) (hInv : Inv v) :
    ∃ v', addList v xs = .ok (VEC_GOOD, v') ∧ Inv v' ∧
      v'.len = v.len + xs.length ∧
      (∀ k, k < v.len → slotD v' k = slotD v k) ∧
      (∀ k (h : k < xs.length), slotD v' (v.len + k) = some (xs.get ⟨k, h⟩)) := by
  induction xs generalizing v with
  | nil =>
    exact ⟨v, rfl, hInv, by simp, fun k _ => rfl, fun k h => by simp at h⟩
  | cons x rest ih =>
    obtain ⟨v1, h1, hInv1, hlen1, hpres1, hx1⟩ := vec_add_ok v x hInv
    obtain ⟨v', h2, hInv2, hlen2, hpres2, hget2⟩ := ih v1 hInv1
    refine ⟨v', ?_, hInv2, ?_, ?_, ?_⟩
    · simp [addList, h1]
      exact h2
    · simp only [List.length_cons]
      omega
    · intro k hk
      rw [hpres2 k (by omega), hpres1 k hk]
    · intro k h
      cases k with
      | zero =>
        rw [Nat.add_zero, hpres2 v.len (by omega), hx1]
        rfl
      | succ j =>
        have hj : j < rest.length := by simpa using h
        rw [show v.len + (j + 1) = v1.len + j from by omega, hget2 j hj]
        rfl

/-- Claim C2: starting from a freshly initialised empty vector, the n
Add calls for values v1..vn all succeed (given working allocation), leave
the length exactly n, and leave slots 0..n-1 holding exactly v1..vn in
order, through any number of internal growth reallocations. -/
theorem vec_addList_from_init {α : Type} (xs : List α) :
    ∃ v', addList (initVec α) xs = .ok (VEC_GOOD, v') ∧ v'.len = xs.length ∧
      ∀ k (h : k < xs.length), slotD v' k = some (xs.get ⟨k, h⟩) := by
  have hInv : Inv (initVec α) :=
    ⟨List.replicate DEF_MAX none, rfl, by simp [initVec, vec_init],
      by simp [initVec, vec_init, DEF_MAX], by simp [initVec, vec_init, DEF_MAX]⟩
  obtain ⟨v', h1, _, hlen, _, hget⟩ := addList_ok xs (initVec α) hInv
  refine ⟨v', h1, by simpa [initVec, vec_init] using hlen, fun k h => ?_⟩
  simpa [initVec, vec_init] using hget k h

/-- Witness for claim C2: three Adds of 7, 8, 9 from a fresh vector. -/
theorem vec_addList_from_init_witness :
    ∃ v', addList (initVec Nat) [7, 8, 9] = .ok (VEC_GOOD, v') ∧ v'.len = 3 ∧
      slotD v' 0 = some 7 ∧ slotD v' 1 = some 8 ∧ slotD v' 2 = some 9 := by
  obtain ⟨v', h1, h2, h3⟩ := vec_addList_from_init [7, 8, 9]
  exact ⟨v', h1, h2, h3 0 (by decide), h3 1 (by decide), h3 2 (by decide)⟩

/-- Claim C3 (code bug): on an invalid (released) vector, `vec_del` does
return a null element and leaves the state unchanged; but on an empty,
valid, freshly initialised vector it does not — the `size_t` expression
`v->len - 1` wraps to `SIZE_MAX` and the final `v->data[--v->len] = NULL`
writes out of bounds, which is undefined behaviour, instead of returning
null with the vector unchanged. -/
theorem vec_del_empty_is_ub :
    vec_del (vec_free (initVec Nat)) 0 = .ok (none, vec_free (initVec Nat)) ∧
    vec_del (initVec Nat) 0 = .error UB.oob := by
  exact ⟨rfl, rfl⟩

/-- Claim C6 (code bug): `vec_delrange` on an empty but valid vector with
a positive count is not a no-op: the clamp `i = v->len - 1` wraps to
`SIZE_MAX` in `size_t`, after which the code frees `v->data[SIZE_MAX]`,
an out-of-bounds access (undefined behaviour). -/
theorem vec_delrange_empty_is_ub :
    vec_delrange (initVec Nat) 0 1 = .error UB.oob := by
  exact rfl

/-- Claim C5 counterexample: `vec_add` on a full vector whose growth
reallocation succeeds but whose element-copy allocation fails returns
`VEC_ALLOC_ERR`, yet the capacity stays doubled (10 became 20): the
observable state is not rolled back, so the operation is not atomic. -/
theorem vec_add_alloc_fail_not_atomic :
    vec_add true false
        (⟨some (List.replicate 10 (some 5)), 10, 10⟩ : CVec Nat) (some 7) 1 =
      .ok (VEC_ALLOC_ERR,
        ⟨some (List.replicate 10 (some 5) ++ List.replicate 10 none), 10, 20⟩) ∧
    (⟨some (List.replicate 10 (some 5) ++ List.replicate 10 none), 10, 20⟩ : CVec Nat) ≠
      ⟨some (List.replicate 10 (some 5)), 10, 10⟩ := by
  exact ⟨rfl, by decide⟩

/-- Claim C8 counterexample: `vec_add` with null element data (and with
zero element size) returns `VEC_ALLOC_ERR`, the allocation-failure code —
the library has no distinct invalid-argument code, contradicting the
claim that the reported error is distinct from the allocation-failure
code. -/
theorem vec_add_bad_arg_gives_alloc_err :
    vec_add true true (initVec Nat) none 1 = .ok (VEC_ALLOC_ERR, initVec Nat) ∧
    vec_add true true (initVec Nat) (some 3) 0 = .ok (VEC_ALLOC_ERR, initVec Nat) := by
  exact ⟨rfl, rfl⟩

/-- Claim C9 counterexample: `vec_reserve` performs no `vec_check`, so on
a released vector (null buffer, stale `max = 10`) a request above the
stale capacity reallocates the buffer, mutates the vector and returns
`VEC_GOOD` — it neither fails with an invalid-handle error nor is a
no-op. -/
theorem vec_reserve_mutates_released :
    vec_reserve true (vec_free (initVec Nat)) 20 =
      (VEC_GOOD, ⟨some (List.replicate 200 none), 0, 20⟩) ∧
    (⟨some (List.replicate 200 none), 0, 20⟩ : CVec Nat) ≠ vec_free (initVec Nat) := by
  exact ⟨rfl, by decide⟩

/-- Claim C10: when `vec_init` is given a non-null handle and its `malloc`
fails, it still overwrites the handle: length becomes 0, capacity becomes
the default `DEF_MAX = 10`, the buffer pointer becomes null, and
`VEC_ALLOC_ERR` is returned. -/
theorem vec_init_fail_overwrites {α : Type} (v : CVec α) :
    vec_init false v = (VEC_ALLOC_ERR, ⟨none, 0, DEF_MAX⟩) ∧ DEF_MAX = 10 :=
  ⟨rfl, rfl⟩

/-- Claim C7: `vec_reserve` with a request at most the current capacity
fails with `VEC_RANGE_ERR` and changes nothing; with a larger request it
succeeds exactly when the reallocation succeeds, making the capacity
field exactly the requested value and preserving the length; on
reallocation failure it returns `VEC_ALLOC_ERR` with the vector entirely
unchanged. -/
theorem vec_reserve_spec {α : Type} (allocOk : Bool) (v : CVec α) (n : Nat) :
    (n ≤ v.max → vec_reserve allocOk v n = (VEC_RANGE_ERR, v)) ∧
    (v.max < n → allocOk = true →
      (vec_reserve allocOk v n).1 = VEC_GOOD ∧
      (vec_reserve allocOk v n).2.max = n ∧
      (vec_reserve allocOk v n).2.len = v.len) ∧
    (v.max < n → allocOk = false → vec_reserve allocOk v n = (VEC_ALLOC_ERR, v)) := by
  refine ⟨fun h => ?_, fun h ha => ?_, fun h ha => ?_⟩
  · simp [vec_reserve, h]
  · subst ha
    simp [vec_reserve, show ¬ n ≤ v.max from by omega]
  · subst ha
    simp [vec_reserve, show ¬ n ≤ v.max from by omega]

/-- Claim C9 (amended): after release the vector's buffer pointer is
null, and every operation other than a fresh `vec_init` and other than
`vec_reserve` then treats it as invalid — it fails with the
invalid-handle indication (`VEC_NULL_ERR`, or a null element for
`vec_del`) or is a no-op, and never mutates the released vector.
`vec_reserve` checks only the handle for null, so it can reallocate and
mutate a released vector (see the counterexample). -/
theorem vec_freed_ops_are_noops {α : Type} (v : CVec α) (d : Option α)
    (cmp : Option (Option α → Option α → Int)) (fixOk elemOk : Bool) (n i m : Nat)
    (hv : v.data = none) :
    vec_add fixOk elemOk v d n = .ok (VEC_NULL_ERR, v) ∧
    vec_ins fixOk elemOk v d n i = .ok (VEC_NULL_ERR, v) ∧
    vec_del v i = .ok (none, v) ∧
    vec_delrange v i m = .ok v ∧
    vec_reverse v = v ∧
    vec_sort v cmp = (VEC_NULL_ERR, v) ∧
    vec_clear v = v ∧
    vec_free v = v := by
  refine ⟨?_, ?_, ?_, ?_, ?_, ?_, ?_, ?_⟩
  · simp [vec_add, hv]
  · simp [vec_ins, hv]
  · simp [vec_del, hv]
  · simp [vec_delrange, hv]
  · simp [vec_reverse, hv]
  · simp [vec_sort, vec_check, hv]
  · simp [vec_clear, hv]
  · simp [vec_free, hv]

/-- Witness for claim C9's amended theorem on a concrete released
vector. -/
theorem vec_freed_ops_are_noops_witness :
    (vec_free (initVec Nat)).data = none ∧
    vec_del (vec_free (initVec Nat)) 3 = .ok (none, vec_free (initVec Nat)) ∧
    vec_clear (vec_free (initVec Nat)) = vec_free (initVec Nat) := by
  refine ⟨rfl, ?_, ?_⟩
  · exact (vec_freed_ops_are_noops (vec_free (initVec Nat)) (some 1) none
      true true 1 3 2 rfl).2.2.1
  · exact (vec_freed_ops_are_noops (vec_free (initVec Nat)) (some 1) none
      true true 1 3 2 rfl).2.2.2.2.2.2.1

/-- Claim C8 (amended): `vec_add` on a valid vector with null element
data or zero element size fails and appends nothing — the length is
unchanged — but the reported code is `VEC_ALLOC_ERR`, the very same code
used for allocation failure (the library defines no separate
invalid-argument code), and the capacity may still have grown when the
vector was full. -/
theorem vec_add_bad_arg_spec {α : Type} (fixOk elemOk : Bool) (v : CVec α)
    (d : Option α) (n : Nat) (hv : v.data.isSome = true) (hbad : d = none ∨ n = 0) :
    ∃ v', vec_add fixOk elemOk v d n = .ok (VEC_ALLOC_ERR, v') ∧
      v'.len = v.len ∧ v.max ≤ v'.max := by
  obtain ⟨buf, hd⟩ := Option.isSome_iff_exists.mp hv
  have helem : vec_new_elem elemOk d n = none := by
    rcases hbad with h | h
    · simp [vec_new_elem, h]
    · simp [vec_new_elem, h]
  by_cases hlt : v.len < v.max
  · refine ⟨v, ?_, rfl, le_refl _⟩
    simp [vec_add, hd, vec_fix, hlt, helem]
  · cases fixOk with
    | false =>
      refine ⟨v, ?_, rfl, le_refl _⟩
      simp [vec_add, hd, vec_fix, hlt]
    | true =>
      refine ⟨{ v with
                max := 2 * v.max,
                data := some (reallocSlots (v.data.getD []) (2 * v.max)) },
        ?_, rfl, show v.max ≤ 2 * v.max from by omega⟩
      simp [vec_add, hd, vec_fix, hlt, helem]

/-- Witness for claim C8's amended theorem on a concrete input. -/
theorem vec_add_bad_arg_spec_witness :
    ((initVec Nat).data.isSome = true ∧ ((none : Option Nat) = none ∨ 1 = 0)) ∧
    ∃ v', vec_add true true (initVec Nat) none 1 = .ok (VEC_ALLOC_ERR, v') ∧
      v'.len = (initVec Nat).len ∧ (initVec Nat).max ≤ v'.max := by
  exact ⟨⟨rfl, Or.inl rfl⟩,
    vec_add_bad_arg_spec true true (initVec Nat) none 1 rfl (Or.inl rfl)⟩

theorem slotD_grown {α : Type} {v : CVec α} {buf : List (Option α)}
    (hd : v.data = some buf) (hlm : v.len ≤ v.max) (hmb : v.max ≤ buf.length)
    {k : Nat} (hk : k < v.len) :
    (reallocSlots buf (2 * v.max)).getD k none = slotD v k := by
  have h1 : slotD v k = buf.getD k none := by simp [slotD, hd]
  rw [h1]
  exact getD_reallocSlots (by omega) (by omega)

theorem bind1_code {α : Type} {m : Except UB (List (Option α))}
    {f : List (Option α) → CVec α} {r : Nat} {v' : CVec α}
    (h : (do
        let b ← m
        Except.ok (VEC_GOOD, f b)) = Except.ok (r, v')) : r = VEC_GOOD := by
  cases m with
  | error e => cases h
  | ok b =>
    injection h with h2
    injection h2 with h3 h4
    exact h3.symm

theorem bind2_code {α : Type} {m : Except UB (List (Option α))}
    {g : List (Option α) → Except UB (List (Option α))}
    {f : List (Option α) → CVec α} {r : Nat} {v' : CVec α}
    (h : (do
        let b1 ← m
        let b2 ← g b1
        Except.ok (VEC_GOOD, f b2)) = Except.ok (r, v')) : r = VEC_GOOD := by
  cases m with
  | error e => cases h
  | ok b1 =>
    have h2 : (do
        let b2 ← g b1
        Except.ok (VEC_GOOD, f b2)) = Except.ok (r, v') := h
    exact bind1_code h2

theorem ok_bind {ε γ δ : Type} (a : γ) (f : γ → Except ε δ) :
    (Except.ok a : Except ε γ) >>= f = f a := rfl

theorem error_bind {ε γ δ : Type} (e : ε) (f : γ → Except ε δ) :
    (Except.error e : Except ε γ) >>= f = Except.error e := rfl

theorem vec_add_len_le {α : Type} {fixOk elemOk : Bool} {v : CVec α} {d : Option α}
    {n r : Nat} {v' : CVec α} (hWf : Wf v)
    (h : vec_add fixOk elemOk v d n = .ok (r, v')) : v'.len ≤ v'.max := by
  cases hd : v.data with
  | none =>
    simp [vec_add, hd] at h
    rw [← h.2]
    exact hWf.1
  | some buf =>
    have hlm := hWf.1
    have hmb := (hWf.2 buf hd).1
    by_cases hlt : v.len < v.max
    · cases helem : vec_new_elem elemOk d n with
      | none =>
        simp [vec_add, hd, vec_fix, hlt, helem] at h
        rw [← h.2]
        exact hWf.1
      | some e =>
        simp [vec_add, hd, vec_fix, hlt, helem] at h
        cases hss : setSlot buf v.len (some e) with
        | error e2 =>
          rw [hss] at h
          cases h
        | ok buf2 =>
          rw [hss] at h
          simp only [ok_bind] at h
          injection h with h2
          injection h2 with h3 h4
          rw [← h4]
          show v.len + 1 ≤ v.max
          omega
    · cases fixOk with
      | false =>
        simp [vec_add, hd, vec_fix, hlt] at h
        rw [← h.2]
        exact hWf.1
      | true =>
        cases helem : vec_new_elem elemOk d n with
        | none =>
          simp [vec_add, hd, vec_fix, hlt, helem] at h
          rw [← h.2]
          show v.len ≤ 2 * v.max
          omega
        | some e =>
          simp [vec_add, hd, vec_fix, hlt, helem] at h
          cases hss : setSlot (reallocSlots buf (2 * v.max)) v.len (some e) with
          | error e2 =>
            rw [hss] at h
            cases h
          | ok buf2 =>
            have hlen := (setSlot_ok hss).1
            rw [length_reallocSlots] at hlen
            rw [hss] at h
            simp only [ok_bind] at h
            injection h with h2
            injection h2 with h3 h4
            rw [← h4]
            show v.len + 1 ≤ 2 * v.max
            omega

theorem vec_ins_len_le {α : Type} {fixOk elemOk : Bool} {v : CVec α} {d : Option α}
    {n i r : Nat} {v' : CVec α} (hWf : Wf v)
    (h : vec_ins fixOk elemOk v d n i = .ok (r, v')) : v'.len ≤ v'.max := by
  cases hd : v.data with
  | none =>
    simp [vec_ins, hd] at h
    rw [← h.2]
    exact hWf.1
  | some buf =>
    have hlm := hWf.1
    have hmb := (hWf.2 buf hd).1
    by_cases hge : i ≥ v.len
    · have h2 : vec_add fixOk elemOk v d n = .ok (r, v') := by
        rw [← h]
        simp [vec_ins, hd, hge]
      exact vec_add_len_le hWf h2
    · by_cases hlt : v.len < v.max
      · cases helem : vec_new_elem elemOk d n with
        | none =>
          simp [vec_ins, hd, hge, vec_fix, hlt, helem] at h
          rw [← h.2]
          exact hWf.1
        | some e =>
          simp [vec_ins, hd, hge, vec_fix, hlt, helem] at h
          cases hmm : memmoveSlots buf (i + 1) i (ssub v.len i) with
          | error e2 =>
            rw [hmm] at h
            cases h
          | ok buf1 =>
            rw [hmm] at h
            simp only [ok_bind] at h
            cases hss : setSlot buf1 i (some e) with
            | error e2 =>
              rw [hss] at h
              cases h
            | ok buf2 =>
              rw [hss] at h
              simp only [ok_bind] at h
              injection h with h2
              injection h2 with h3 h4
              rw [← h4]
              show v.len + 1 ≤ v.max
              omega
      · cases fixOk with
        | false =>
          simp [vec_ins, hd, hge, vec_fix, hlt] at h
          rw [← h.2]
          exact hWf.1
        | true =>
          cases helem : vec_new_elem elemOk d n with
          | none =>
            simp [vec_ins, hd, hge, vec_fix, hlt, helem] at h
            rw [← h.2]
            show v.len ≤ 2 * v.max
            omega
          | some e =>
            simp [vec_ins, hd, hge, vec_fix, hlt, helem] at h
            cases hmm : memmoveSlots (reallocSlots buf (2 * v.max)) (i + 1) i
                (ssub v.len i) with
            | error e2 =>
              rw [hmm] at h
              cases h
            | ok buf1 =>
              have hl1 : buf1.length = 2 * v.max := by
                have := (memmoveSlots_ok hmm).2.2
                rw [length_reallocSlots] at this
                exact this
              rw [hmm] at h
              simp only [ok_bind] at h
              cases hss : setSlot buf1 i (some e) with
              | error e2 =>
                rw [hss] at h
                cases h
              | ok buf2 =>
                have hi2 := (setSlot_ok hss).1
                rw [hss] at h
                simp only [ok_bind] at h
                injection h with h2
                injection h2 with h3 h4
                rw [← h4]
                show v.len + 1 ≤ 2 * v.max
                omega

theorem vec_del_len_le {α : Type} {v : CVec α} {i : Nat} {x : Option α} {v' : CVec α}
    (hWf : Wf v) (h : vec_del v i = .ok (x, v')) : v'.len ≤ v'.max := by
  cases hd : v.data with
  | none =>
    simp [vec_del, hd] at h
    rw [← h.2]
    exact hWf.1
  | some buf =>
    have hlm := hWf.1
    have hmb := (hWf.2 buf hd).1
    have hbW := (hWf.2 buf hd).2
    rcases Nat.eq_zero_or_pos v.len with h0 | h0
    · exfalso
      have hsub : ssub v.len 1 = W - 1 := by
        rw [h0]
        decide
      simp only [vec_del, hd, hsub] at h
      by_cases hib : i ≥ W - 1
      · rw [if_pos hib] at h
        have hrs : readSlot buf (W - 1) = .error UB.oob := by
          unfold readSlot
          rw [if_neg (by omega)]
        rw [hrs] at h
        cases h
      · rw [if_neg hib] at h
        cases hr : readSlot buf i with
        | error e => rw [hr] at h; cases h
        | ok y =>
          rw [hr] at h
          simp only [ok_bind] at h
          cases hmm : memmoveSlots buf i (i + 1) (ssub v.len i) with
          | error e => rw [hmm] at h; cases h
          | ok buf1 =>
            have hl1 : buf1.length = buf.length := (memmoveSlots_ok hmm).2.2
            rw [hmm] at h
            simp only [ok_bind] at h
            have hss : setSlot buf1 (W - 1) none = .error UB.oob := by
              unfold setSlot
              rw [if_neg (by omega)]
            rw [hss] at h
            cases h
    · have hsub : ssub v.len 1 = v.len - 1 := ssub_of_le (by omega) (by omega)
      simp only [vec_del, hd, hsub] at h
      by_cases hib : i ≥ v.len - 1
      · rw [if_pos hib] at h
        cases hr : readSlot buf (v.len - 1) with
        | error e => rw [hr] at h; cases h
        | ok y =>
          rw [hr] at h
          simp only [ok_bind] at h
          cases hss : setSlot buf (v.len - 1) none with
          | error e => rw [hss] at h; cases h
          | ok buf2 =>
            rw [hss] at h
            simp only [ok_bind] at h
            injection h with h2
            injection h2 with h3 h4
            rw [← h4]
            show v.len - 1 ≤ v.max
            omega
      · rw [if_neg hib] at h
        cases hr : readSlot buf i with
        | error e => rw [hr] at h; cases h
        | ok y =>
          rw [hr] at h
          simp only [ok_bind] at h
          cases hmm : memmoveSlots buf i (i + 1) (ssub v.len i) with
          | error e => rw [hmm] at h; cases h
          | ok buf1 =>
            rw [hmm] at h
            simp only [ok_bind] at h
            cases hss : setSlot buf1 (v.len - 1) none with
            | error e => rw [hss] at h; cases h
            | ok buf2 =>
              rw [hss] at h
              simp only [ok_bind] at h
              injection h with h2
              injection h2 with h3 h4
              rw [← h4]
              show v.len - 1 ≤ v.max
              omega

theorem vec_delrange_len_le {α : Type} {v : CVec α} {i n : Nat} {v' : CVec α}
    (hWf : Wf v) (h : vec_delrange v i n = .ok v') : v'.len ≤ v'.max := by
  cases hd : v.data with
  | none =>
    simp [vec_delrange, hd] at h
    rw [← h]
    exact hWf.1
  | some buf =>
    have hlm := hWf.1
    have hmb := (hWf.2 buf hd).1
    have hbW := (hWf.2 buf hd).2
    have hW : 0 < W := W_pos
    by_cases hn : n = 0
    · simp [vec_delrange, hd, hn] at h
      rw [← h]
      exact hWf.1
    · rcases Nat.eq_zero_or_pos v.len with h0 | h0
      · exfalso
        have hge : i ≥ v.len := by omega
        simp only [vec_delrange, hd, if_neg hn] at h
        rw [if_pos hge] at h
        rw [show ssub v.len 1 = W - 1 from by rw [h0]; decide] at h
        rw [show ssub v.len (W - 1) = 1 from by rw [h0]; decide] at h
        rw [show (if n > 1 then 1 else n) = 1 from by
          by_cases hn1 : n > 1
          · rw [if_pos hn1]
          · rw [if_neg hn1]
            omega] at h
        rw [if_neg (show ¬ (W - 1 + 1 ≤ buf.length) from by omega)] at h
        cases h
      · have hsub : ssub v.len 1 = v.len - 1 := ssub_of_le (by omega) (by omega)
        simp only [vec_delrange, hd, if_neg hn] at h
        by_cases hge : i ≥ v.len
        · rw [if_pos hge, hsub] at h
          rw [show ssub v.len (v.len - 1) = 1 from by
            rw [ssub_of_le (by omega) (by omega)]
            omega] at h
          rw [show (if n > 1 then 1 else n) = 1 from by
            by_cases hn1 : n > 1
            · rw [if_pos hn1]
            · rw [if_neg hn1]
              omega] at h
          rw [if_pos (show v.len - 1 + 1 ≤ buf.length from by omega)] at h
          rw [show ssub v.len (v.len - 1 + 1) = 0 from by
            rw [show v.len - 1 + 1 = v.len from by omega,
              ssub_of_le le_rfl (by omega)]
            omega] at h
          rw [if_neg (show ¬ ((0 : Nat) ≠ 0) from by omega)] at h
          rw [hsub] at h
          injection h with h2
          rw [← h2]
          show v.len - 1 ≤ v.max
          omega
        · rw [if_neg hge] at h
          rw [show ssub v.len i = v.len - i from ssub_of_le (by omega) (by omega)] at h
          by_cases hn1 : n > v.len - i
          · rw [if_pos hn1] at h
            rw [if_pos (show i + (v.len - i) ≤ buf.length from by omega)] at h
            rw [show ssub v.len (i + (v.len - i)) = 0 from by
              rw [show i + (v.len - i) = v.len from by omega,
                ssub_of_le le_rfl (by omega)]
              omega] at h
            rw [if_neg (show ¬ ((0 : Nat) ≠ 0) from by omega)] at h
            rw [show ssub v.len (v.len - i) = v.len - (v.len - i) from
              ssub_of_le (by omega) (by omega)] at h
            injection h with h2
            rw [← h2]
            show v.len - (v.len - i) ≤ v.max
            omega
          · rw [if_neg hn1] at h
            rw [if_pos (show i + n ≤ buf.length from by omega)] at h
            rw [show ssub v.len (i + n) = v.len - (i + n) from
              ssub_of_le (by omega) (by omega)] at h
            rw [show ssub v.len n = v.len - n from
              ssub_of_le (by omega) (by omega)] at h
            by_cases hlf : v.len - (i + n) ≠ 0
            · rw [if_pos hlf] at h
              cases hmm : memmoveSlots (clearRange buf i n) i (i + n)
                  (v.len - (i + n)) with
              | error e =>
                rw [hmm] at h
                cases h
              | ok buf2 =>
                rw [hmm] at h
                simp only [ok_bind] at h
                injection h with h2
                rw [← h2]
                show v.len - n ≤ v.max
                omega
            · rw [if_neg hlf] at h
              injection h with h2
              rw [← h2]
              show v.len - n ≤ v.max
              omega

/-- Claim C1: for every well-formed vector (length at most capacity,
buffer at least as large as the capacity when allocated), each mutating
operation — Add, Insert, Delete, DeleteRange, Reserve, Clear — that
returns (that is, whose execution stays inside the allocated buffer)
leaves the vector with length at most capacity. -/
theorem vec_len_le_max {α : Type} (v : CVec α) (d : Option α)
    (fixOk elemOk allocOk : Bool) (n i m cnt : Nat) (hWf : Wf v) :
    (∀ r v', vec_add fixOk elemOk v d n = .ok (r, v') → v'.len ≤ v'.max) ∧
    (∀ r v', vec_ins fixOk elemOk v d n i = .ok (r, v') → v'.len ≤ v'.max) ∧
    (∀ x v', vec_del v i = .ok (x, v') → v'.len ≤ v'.max) ∧
    (∀ v', vec_delrange v i cnt = .ok v' → v'.len ≤ v'.max) ∧
    (∀ r v', vec_reserve allocOk v m = (r, v') → v'.len ≤ v'.max) ∧
    (vec_clear v).len ≤ (vec_clear v).max := by
  refine ⟨fun r v' h => vec_add_len_le hWf h,
    fun r v' h => vec_ins_len_le hWf h,
    fun x v' h => vec_del_len_le hWf h,
    fun v' h => vec_delrange_len_le hWf h, ?_, ?_⟩
  · intro r v' h
    unfold vec_reserve at h
    split at h
    · injection h with h1 h2
      rw [← h2]
      exact hWf.1
    · split at h
      · injection h with h1 h2
        rw [← h2]
        show v.len ≤ m
        have := hWf.1
        omega
      · injection h with h1 h2
        rw [← h2]
        exact hWf.1
  · cases hd : v.data with
    | none =>
      simp [vec_clear, hd]
      exact hWf.1
    | some buf =>
      simp [vec_clear, hd]

/-- Witness for claim C1 at a concrete well-formed vector. -/
theorem vec_len_le_max_witness :
    Wf (initVec Nat) ∧
    (vec_clear (initVec Nat)).len ≤ (vec_clear (initVec Nat)).max ∧
    (∀ r v', vec_reserve true (initVec Nat) 20 = (r, v') → v'.len ≤ v'.max) := by
  have hWf : Wf (initVec Nat) := by
    refine ⟨by decide, fun buf hb => ?_⟩
    injection hb with hb2
    subst hb2
    exact ⟨by decide, by norm_num [W, DEF_MAX]⟩
  have hmain := vec_len_le_max (initVec Nat) (some 1) true true true 1 0 20 1 hWf
  exact ⟨hWf, hmain.2.2.2.2.2, hmain.2.2.2.2.1⟩

/-- Claim C5 (amended): whenever `vec_add` or `vec_ins` on a well-formed
vector fails with `VEC_ALLOC_ERR`, the length and all stored elements are
exactly as before the call; the capacity, however, is not rolled back —
it may have been left doubled when the growth reallocation succeeded and
only the element-copy allocation failed (see the counterexample). -/
theorem vec_add_ins_alloc_fail_keeps_contents {α : Type} (fixOk elemOk : Bool)
    (v : CVec α) (d : Option α) (n i : Nat) (hWf : Wf v) :
    (∀ v', vec_add fixOk elemOk v d n = .ok (VEC_ALLOC_ERR, v') →
      v'.len = v.len ∧ v.max ≤ v'.max ∧ ∀ k, k < v.len → slotD v' k = slotD v k) ∧
    (∀ v', vec_ins fixOk elemOk v d n i = .ok (VEC_ALLOC_ERR, v') →
      v'.len = v.len ∧ v.max ≤ v'.max ∧ ∀ k, k < v.len → slotD v' k = slotD v k) := by
  have hlm := hWf.1
  have addPart : ∀ v', vec_add fixOk elemOk v d n = .ok (VEC_ALLOC_ERR, v') →
      v'.len = v.len ∧ v.max ≤ v'.max ∧ ∀ k, k < v.len → slotD v' k = slotD v k := by
    intro v' h
    cases hd : v.data with
    | none =>
      simp [vec_add, hd, VEC_NULL_ERR, VEC_ALLOC_ERR] at h
    | some buf =>
      have hmb := (hWf.2 buf hd).1
      by_cases hlt : v.len < v.max
      · cases helem : vec_new_elem elemOk d n with
        | none =>
          simp [vec_add, hd, vec_fix, hlt, helem] at h
          subst h
          exact ⟨rfl, le_refl _, fun k _ => rfl⟩
        | some e =>
          simp only [vec_add, hd, vec_fix, if_pos hlt, Bool.not_true, if_neg,
            Bool.false_eq_true, not_false_eq_true, helem] at h
          exact absurd (bind1_code h) (by decide)
      · cases fixOk with
        | false =>
          simp [vec_add, hd, vec_fix, hlt] at h
          subst h
          exact ⟨rfl, le_refl _, fun k _ => rfl⟩
        | true =>
          cases helem : vec_new_elem elemOk d n with
          | none =>
            simp [vec_add, hd, vec_fix, hlt, helem] at h
            subst h
            refine ⟨rfl, show v.max ≤ 2 * v.max from by omega, fun k hk => ?_⟩
            have h2 : slotD
                { v with max := 2 * v.max, data := some (reallocSlots buf (2 * v.max)) } k =
                (reallocSlots buf (2 * v.max)).getD k none := by
              simp [slotD]
            rw [h2]
            exact slotD_grown hd hlm hmb hk
          | some e =>
            simp only [vec_add, hd, vec_fix, if_neg hlt, if_pos, Bool.not_true, if_neg,
              Bool.false_eq_true, not_false_eq_true, helem] at h
            exact absurd (bind1_code h) (by decide)
  refine ⟨addPart, ?_⟩
  intro v' h
  cases hd : v.data with
  | none =>
    simp [vec_ins, hd, VEC_NULL_ERR, VEC_ALLOC_ERR] at h
  | some buf =>
    have hmb := (hWf.2 buf hd).1
    by_cases hge : i ≥ v.len
    · apply addPart
      rw [← h]
      simp [vec_ins, hd, hge]
    · by_cases hlt : v.len < v.max
      · cases helem : vec_new_elem elemOk d n with
        | none =>
          simp [vec_ins, hd, hge, vec_fix, hlt, helem] at h
          subst h
          exact ⟨rfl, le_refl _, fun k _ => rfl⟩
        | some e =>
          simp only [vec_ins, hd, hge, if_neg, vec_fix, if_pos hlt, Bool.not_true,
            Bool.false_eq_true, not_false_eq_true, helem] at h
          exact absurd (bind2_code h) (by decide)
      · cases fixOk with
        | false =>
          simp [vec_ins, hd, hge, vec_fix, hlt] at h
          subst h
          exact ⟨rfl, le_refl _, fun k _ => rfl⟩
        | true =>
          cases helem : vec_new_elem elemOk d n with
          | none =>
            simp [vec_ins, hd, hge, vec_fix, hlt, helem] at h
            subst h
            refine ⟨rfl, show v.max ≤ 2 * v.max from by omega, fun k hk => ?_⟩
            have h2 : slotD
                { v with max := 2 * v.max, data := some (reallocSlots buf (2 * v.max)) } k =
                (reallocSlots buf (2 * v.max)).getD k none := by
              simp [slotD]
            rw [h2]
            exact slotD_grown hd hlm hmb hk
          | some e =>
            simp only [vec_ins, hd, hge, if_neg, vec_fix, if_neg hlt, if_pos,
              Bool.not_true, Bool.false_eq_true, not_false_eq_true, helem] at h
            exact absurd (bind2_code h) (by decide)
theorem vec_add_ins_alloc_fail_keeps_contents_witness :
    Wf (initVec Nat) ∧
    (vec_add true false (initVec Nat) (some 7) 1 = .ok (VEC_ALLOC_ERR, initVec Nat) ∧
      ∀ v', vec_add true false (initVec Nat) (some 7) 1 = .ok (VEC_ALLOC_ERR, v') →
        v'.len = (initVec Nat).len) := by
  have hWf : Wf (initVec Nat) := by
    refine ⟨by decide, fun buf hb => ?_⟩
    injection hb with hb2
    subst hb2
    exact ⟨by decide, by norm_num [W, DEF_MAX]⟩
  refine ⟨hWf, rfl, fun v' h => ?_⟩
  exact ((vec_add_ins_alloc_fail_keeps_contents true false (initVec Nat)
    (some 7) 1 0 hWf).1 v' h).1

/-- Claim C4: on any vector, `vec_ins` with an index at or past the
length is exactly the `vec_add` call (same resulting state and status for
every allocation outcome); and on a non-empty well-formed vector,
`vec_del` with an index at or past the length is exactly `vec_del` of the
last index `len - 1` (same resulting state and returned element). -/
theorem vec_ins_del_clamp {α : Type} (v : CVec α) (d : Option α)
    (fixOk elemOk : Bool) (n i : Nat) (hWf : Wf v) :
    (i ≥ v.len → vec_ins fixOk elemOk v d n i = vec_add fixOk elemOk v d n) ∧
    (0 < v.len → i ≥ v.len → vec_del v i = vec_del v (v.len - 1)) := by
  constructor
  · intro hi
    cases hd : v.data with
    | none => simp [vec_ins, vec_add, hd]
    | some buf => simp [vec_ins, hd, hi]
  · intro h0 hi
    cases hd : v.data with
    | none => simp [vec_del, hd]
    | some buf =>
      have hW : v.len < W := by
        have := (hWf.2 buf hd).1
        have := (hWf.2 buf hd).2
        have := hWf.1
        omega
      have hsub : ssub v.len 1 = v.len - 1 := ssub_of_le (by omega) (by omega)
      simp only [vec_del, hd, hsub]
      rw [if_pos (by omega), if_pos (by omega)]

/-- Witness for claim C4 on a concrete three-element vector with the
out-of-range index 5. -/
theorem vec_ins_del_clamp_witness :
    (Wf (⟨some ([some 1, some 2, some 3] ++ List.replicate 7 none), 3, 10⟩ : CVec Nat) ∧
      5 ≥ (⟨some ([some 1, some 2, some 3] ++ List.replicate 7 none), 3, 10⟩ : CVec Nat).len ∧
      0 < (⟨some ([some 1, some 2, some 3] ++ List.replicate 7 none), 3, 10⟩ : CVec Nat).len) ∧
    vec_ins true true (⟨some ([some 1, some 2, some 3] ++ List.replicate 7 none), 3, 10⟩ : CVec Nat) (some 9) 1 5 =
      vec_add true true (⟨some ([some 1, some 2, some 3] ++ List.replicate 7 none), 3, 10⟩ : CVec Nat) (some 9) 1 ∧
    vec_del (⟨some ([some 1, some 2, some 3] ++ List.replicate 7 none), 3, 10⟩ : CVec Nat) 5 =
      vec_del (⟨some ([some 1, some 2, some 3] ++ List.replicate 7 none), 3, 10⟩ : CVec Nat) 2 := by
  have hWf : Wf (⟨some ([some 1, some 2, some 3] ++ List.replicate 7 none), 3, 10⟩ : CVec Nat) := by
    refine ⟨by decide, fun buf hb => ?_⟩
    injection hb with hb2
    subst hb2
    exact ⟨by decide, by norm_num [W]⟩
  refine ⟨⟨hWf, by decide, by decide⟩, ?_, ?_⟩
  · exact (vec_ins_del_clamp _ (some 9) true true 1 5 hWf).1 (by decide)
  · exact (vec_ins_del_clamp
      (⟨some ([some 1, some 2, some 3] ++ List.replicate 7 none), 3, 10⟩ : CVec Nat)
      (some 9) true true 1 5 hWf).2 (by decide) (by decide)

/-- Witness for claim C7 at concrete inputs. -/
theorem vec_reserve_spec_witness :
    (5 ≤ (initVec Nat).max ∧
      vec_reserve true (initVec Nat) 5 = (VEC_RANGE_ERR, initVec Nat)) ∧
    ((initVec Nat).max < 20 ∧ (vec_reserve true (initVec Nat) 20).1 = VEC_GOOD ∧
      (vec_reserve true (initVec Nat) 20).2.max = 20 ∧
      (vec_reserve true (initVec Nat) 20).2.len = (initVec Nat).len) ∧
    ((initVec Nat).max < 20 ∧
      vec_reserve false (initVec Nat) 20 = (VEC_ALLOC_ERR, initVec Nat)) := by
  refine ⟨⟨by decide, (vec_reserve_spec true (initVec Nat) 5).1 (by decide)⟩,
    ⟨by decide, (vec_reserve_spec true (initVec Nat) 20).2.1 (by decide) rfl⟩,
    ⟨by decide, (vec_reserve_spec false (initVec Nat) 20).2.2 (by decide) rfl⟩⟩

end VecC
